import Mathlib

/-!
Verification of the `csvtojson` utility (src/csvtojson.py) against its
natural-language specification.

The program is a single-pass batch transform: it parses a CSV into rows of
cells, finds rows containing the repeated 5-cell header pattern
"Port,vLAN,Dj,Alias,Room", extracts one record per (data row, block start),
normalizes ports and VLANs, sorts the records by a numeric port key, and
serializes them as a JSON array.

Every definition below is a direct translation of the corresponding Python
function (names are kept).  Strings are modelled as Lean `String`s, with the
character-level work done on `List Char`; functions suffixed `L` are the
`List Char` cores of their `String` counterparts.  Python's `re` patterns are
translated character-by-character: `\d` is modelled as an ASCII digit (the
input data is ASCII), and the Python semantics of `$` in `re.match` — which
also matches just before a single trailing newline — is modelled explicitly.
Definitions whose doc comment says "Spec-side" are instead transcribed from
the specification's wording, to be compared against the source translation.
-/

/-- Python `str.isspace` / `str.strip` whitespace class (the characters the
default `strip()` removes): ASCII whitespace, the C1 separators, NEL, NBSP
and the Unicode space separators. -/
def pyWS (c : Char) : Bool :=
  let v := c.toNat
  (0x9 ≤ v && v ≤ 0xd) || (0x1c ≤ v && v ≤ 0x1f) || v == 0x20 || v == 0x85 ||
  v == 0xa0 || v == 0x1680 || (0x2000 ≤ v && v ≤ 0x200a) || v == 0x2028 ||
  v == 0x2029 || v == 0x202f || v == 0x205f || v == 0x3000

/-- Python `s.strip()` on a list of characters: drop whitespace from both ends. -/
def stripL (cs : List Char) : List Char :=
  ((cs.dropWhile pyWS).reverse.dropWhile pyWS).reverse

/-- The non-breaking-space character U+00A0. -/
def nbsp : Char := Char.ofNat 0xa0

/-- `(s or "").replace(" ", " ")` on a list of characters. -/
def replaceNbsp (cs : List Char) : List Char :=
  cs.map (fun c => if c = nbsp then ' ' else c)

/-- `norm`, list core: `(s or "").replace(" ", " ").strip()`. -/
def normL (cs : List Char) : List Char :=
  stripL (replaceNbsp cs)

/-- `norm(s)`: trim, remove NBSP, preserve empties (src/csvtojson.py:33). -/
def norm (s : String) : String := ⟨normL s.data⟩

/-- Strip one leading apostrophe and re-strip, shared tail of `clean_port`
and `clean_vlan_raw`: `if s.startswith("'"): s = s[1:].strip()`. -/
def stripApos (cs : List Char) : List Char :=
  match cs with
  | [] => []
  | c :: r => if c = '\'' then stripL r else c :: r

/-- `clean_port`, list core. -/
def clean_portL (cs : List Char) : List Char :=
  stripApos (normL cs)

/-- `clean_port(s)`: normalize port cell (src/csvtojson.py:37). -/
def clean_port (s : String) : String := ⟨clean_portL s.data⟩

/-- The regex rewrite in `clean_vlan_raw`: `re.fullmatch(r"(\d+)(?:\.0+)?", s)`
returns group 1 when the whole string is digits optionally followed by a dot
and one or more zeros; otherwise the string is returned unchanged. -/
def vlanRawCollapse (cs : List Char) : List Char :=
  let ds := cs.takeWhile Char.isDigit
  let rest := cs.dropWhile Char.isDigit
  if ds = [] then cs
  else
    match rest with
    | [] => ds
    | '.' :: zs => if zs ≠ [] && zs.all (fun z => z = '0') then ds else cs
    | _ => cs

/-- `clean_vlan_raw`, list core. -/
def clean_vlan_rawL (cs : List Char) : List Char :=
  vlanRawCollapse (stripApos (normL cs))

/-- `clean_vlan_raw(s)`: trim, remove leading apostrophe, convert
`103.0 -> 103` (src/csvtojson.py:44). -/
def clean_vlan_raw (s : String) : String := ⟨clean_vlan_rawL s.data⟩

/-- Tail of the `^\d+$` matcher after at least one digit was consumed.
Accepts the empty remainder, or — Python `$` semantics — a single trailing
newline; otherwise the next character must again be a digit. -/
def digitsTail : List Char → Bool
  | [] => true
  | c :: cs => if cs = [] && c = '\n' then true else c.isDigit && digitsTail cs

/-- `VLAN_DIGIT_RE.match(s)` where `VLAN_DIGIT_RE = re.compile(r"^\d+$")`
(src/csvtojson.py:31): at least one digit, then digits up to the end, where
`$` also matches just before one trailing newline. -/
def vlanDigitMatch : List Char → Bool
  | [] => false
  | c :: cs => c.isDigit && digitsTail cs

/-- `normalize_vlan_for_output`, list core. -/
def normalize_vlan_for_outputL (cs : List Char) : List Char :=
  let t := clean_vlan_rawL cs
  if t = [] then []
  else if t.map Char.toLower = "lagg".data then "lagg".data
  else if vlanDigitMatch t then t
  else []

/-- `normalize_vlan_for_output(s)`: digits or `lagg` or blank
(src/csvtojson.py:54). -/
def normalize_vlan_for_output (s : String) : String :=
  ⟨normalize_vlan_for_outputL s.data⟩

example : norm "  abc " = "abc" := by decide
example : clean_port "'1/2/3" = "1/2/3" := by decide
example : clean_vlan_raw "103.00" = "103" := by decide
example : normalize_vlan_for_output "LAGG" = "lagg" := by decide
example : normalize_vlan_for_output "abc" = "" := by decide
example : normalize_vlan_for_output "' 42 " = "42" := by decide

mutual

/-- State of the `PORT_RE` matcher inside the first digit run (at least one
digit seen): more digits may follow, or a `/` starting the first group. -/
def afterFirst : List Char → Bool
  | [] => false
  | c :: r => if c = '/' then groupStart r else if c.isDigit then afterFirst r else false

/-- State of the `PORT_RE` matcher right after a `/`: at least one digit is
required. -/
def groupStart : List Char → Bool
  | [] => false
  | c :: r => if c = '/' then false else if c.isDigit then inGroup r else false

/-- State of the `PORT_RE` matcher inside a `/`-group with at least one digit
seen: the string may end here, continue with digits, or start another group. -/
def inGroup : List Char → Bool
  | [] => true
  | c :: r => if c = '/' then groupStart r else if c.isDigit then inGroup r else false

end

/-- Matcher for the full pattern body `\d+(?:/\d+)+` of
`PORT_RE = re.compile(r"^\d+(?:/\d+)+$")` (src/csvtojson.py:30). -/
def matchPortL : List Char → Bool
  | [] => false
  | c :: r => c.isDigit && afterFirst r

/-- `valid_port(port)` (src/csvtojson.py:103): `PORT_RE.match(port)`, where the
trailing `$` of the anchored pattern also matches just before one trailing
newline (Python `$` semantics). -/
def valid_port (s : String) : Bool :=
  matchPortL s.data ||
    (if s.data.getLast? = some '\n' then matchPortL s.data.dropLast else false)

example : valid_port "1/1/1" = true := by decide
example : valid_port "3/1/46" = true := by decide
example : valid_port "12" = false := by decide
example : valid_port "1/1/a" = false := by decide
example : valid_port "1//2" = false := by decide
example : valid_port "/1" = false := by decide
example : valid_port "1/2/" = false := by decide
example : valid_port "1/2\n" = true := by decide

/-- Python `s.split("/")` on a list of characters (total splitter: the empty
input yields one empty part, separators at the ends yield empty parts). -/
def splitSlash : List Char → List (List Char)
  | [] => [[]]
  | c :: r =>
      let ps := splitSlash r
      if c = '/' then [] :: ps
      else (c :: ps.headD []) :: ps.tail

example : splitSlash "1/2/34".data = ["1".data, "2".data, "34".data] := by decide
example : splitSlash "/".data = [[], []] := by decide
example : splitSlash "".data = [[]] := by decide

/-- Spec-side: a nonempty all-digit segment. -/
def isDigitSeg (p : List Char) : Bool :=
  !p.isEmpty && p.all Char.isDigit

/-- Spec-side port grammar, from the specification's words: "one or more ASCII
digits, followed by one or more groups of `/` + digits" — equivalently, the
string splits on `/` into at least two parts, each a nonempty run of ASCII
digits. -/
def specPortGrammar (s : String) : Bool :=
  let ps := splitSlash s.data
  decide (2 ≤ ps.length) && ps.all isDigitSeg

example : specPortGrammar "1/1/1" = true := by decide
example : specPortGrammar "12" = false := by decide
example : specPortGrammar "1/1/a" = false := by decide

/-- Decimal value of an ASCII digit. -/
def digitVal (c : Char) : Nat := c.toNat - 48

/-- Digit run of Python `int()` after the first digit: further digits, with
single underscores allowed between two digits. -/
def pyIntDigits : List Char → Nat → Option Nat
  | [], acc => some acc
  | c :: cs, acc =>
      if c = '_' then
        match cs with
        | [] => none
        | d :: cs2 => if d.isDigit then pyIntDigits cs2 (acc * 10 + digitVal d) else none
      else if c.isDigit then pyIntDigits cs (acc * 10 + digitVal c)
      else none

/-- Magnitude part of Python `int()`: at least one digit, then `pyIntDigits`. -/
def pyIntCore : List Char → Option Nat
  | [] => none
  | c :: cs => if c.isDigit then pyIntDigits cs (digitVal c) else none

/-- Python `int(s)` on a string: surrounding whitespace stripped, optional
sign, then decimal digits with optional single underscores between digits.
`none` models a raised `ValueError`.  (Non-ASCII Unicode digits are not
modelled; the data this program feeds to `int` is ASCII.) -/
def pyInt (cs : List Char) : Option Int :=
  match stripL cs with
  | '+' :: r => (pyIntCore r).map (fun n => (n : Int))
  | '-' :: r => (pyIntCore r).map (fun n => -(n : Int))
  | r => (pyIntCore r).map (fun n => (n : Int))

example : pyInt "12".data = some 12 := by decide
example : pyInt " -3 ".data = some (-3) := by decide
example : pyInt "1_0".data = some 10 := by decide
example : pyInt "1__0".data = none := by decide
example : pyInt "_1".data = none := by decide
example : pyInt "1_".data = none := by decide
example : pyInt "".data = none := by decide
example : pyInt "x".data = none := by decide

/-- `port_to_sort_tuple(port)` (src/csvtojson.py:107): numeric tuple for
sorting, `(10**9,)` when any component fails to parse as a Python int. -/
def port_to_sort_tuple (s : String) : List Int :=
  match (splitSlash s.data).mapM pyInt with
  | some l => l
  | none => [(10 : Int) ^ 9]

example : port_to_sort_tuple "3/1/46" = [3, 1, 46] := by decide
example : port_to_sort_tuple "x" = [1000000000] := by decide
example : port_to_sort_tuple "" = [1000000000] := by decide

/-- Python `<` on tuples of ints (strict lexicographic order; a proper prefix
is smaller). -/
def keyLt : List Int → List Int → Bool
  | [], [] => false
  | [], _ :: _ => true
  | _ :: _, [] => false
  | a :: as, b :: bs => if a < b then true else if a = b then keyLt as bs else false

/-- Nonstrict comparison associated with `keyLt`. -/
def keyLe (a b : List Int) : Bool := !keyLt b a

/-- An output record: exactly the five string fields of the JSON objects
built at src/csvtojson.py:204. -/
structure Record where
  FIELD1 : String
  Switch1 : String
  FIELD3 : String
  FIELD4 : String
  FIELD5 : String
deriving DecidableEq, Repr

/-- Sort key of a record: `port_to_sort_tuple(r["FIELD1"])`
(src/csvtojson.py:216). -/
def recKey (r : Record) : List Int := port_to_sort_tuple r.FIELD1

/-- Stable insertion into a list sorted by `keyLe` on `recKey`: the new
element goes in front of the first element not strictly below it, so elements
with equal keys keep their original relative order.  For a total preorder the
result of a stable sort is unique, so this computes exactly the output of
Python's stable `list.sort(key=port_to_sort_tuple)`. -/
def insertRec (a : Record) : List Record → List Record
  | [] => [a]
  | b :: bs => if keyLt (recKey b) (recKey a) then b :: insertRec a bs else a :: b :: bs

/-- `records.sort(key=lambda r: port_to_sort_tuple(r["FIELD1"]))`
(src/csvtojson.py:216), realized as a stable insertion sort. -/
def sortRecords : List Record → List Record
  | [] => []
  | a :: as => insertRec a (sortRecords as)

/-- `is_empty_row(row)` (src/csvtojson.py:68). -/
def is_empty_row (row : List String) : Bool :=
  row.isEmpty || row.all (fun c => norm c == "")

/-- `get_cell(row, idx)` (src/csvtojson.py:114): normalized cell, empty when
the row is shorter than the index. -/
def get_cell (row : List String) (idx : Nat) : String :=
  norm (row.getD idx "")

/-- The header pattern `["port", "vlan", "dj", "alias", "room"]`. -/
def headerPat : List String := ["port", "vlan", "dj", "alias", "room"]

/-- Python `str.lower()`, ASCII model. -/
def pyLower (s : String) : String := ⟨s.data.map Char.toLower⟩

/-- `find_block_starts(row)` (src/csvtojson.py:71): all indices `i` such that
the five cells starting at `i`, normalized and lower-cased, spell the header
pattern. -/
def find_block_starts (row : List String) : List Nat :=
  let lower := row.map (fun c => pyLower (norm c))
  (List.range (lower.length - 4)).filter
    (fun i => (lower.drop i).take 5 == headerPat)

example : find_block_starts ["Port", "vLAN", "Dj", "Alias", "Room"] = [0] := by decide
example : find_block_starts ["x", " PORT ", "vlan", "dj", "alias", "room"] = [1] := by decide
example :
    find_block_starts
      ["Port", "vLAN", "Dj", "Alias", "Room", "Port", "vLAN", "Dj", "Alias", "Room"] =
      [0, 5] := by decide
example : find_block_starts ["Port", "vLAN", "Dj", "Alias"] = [] := by decide

/-- Body of the per-block extraction in the main loop
(src/csvtojson.py:170-211): `none` means no record is appended for this
block on this row. -/
def emitBlock (row : List String) (start : Nat) : Option Record :=
  let port_cell := get_cell row start
  let vlan_cell := get_cell row (start + 1)
  let dj_cell := get_cell row (start + 2)
  let room_cell := get_cell row (start + 4)
  if port_cell = "" && vlan_cell = "" && dj_cell = "" && room_cell = "" then none
  else
    let port := clean_port port_cell
    if !valid_port port then none
    else
      let vlan_norm := normalize_vlan_for_output vlan_cell
      if vlan_norm = "" then
        some ⟨port, vlan_norm, "", "", ""⟩
      else
        let dj_out := dj_cell
        let room_out := room_cell
        let alias_out :=
          if room_out ≠ "" && dj_out ≠ "" then room_out ++ " " ++ dj_out
          else if room_out ≠ "" then room_out
          else dj_out
        some ⟨port, vlan_norm, dj_out, alias_out, room_out⟩

/-- Insertion into an ascending list of naturals. -/
def insertNat (a : Nat) : List Nat → List Nat
  | [] => [a]
  | b :: bs => if b < a then b :: insertNat a bs else a :: b :: bs

/-- Python `sorted` on a list of distinct naturals (`for start in
sorted(block_starts)`, src/csvtojson.py:170), realized as insertion sort:
sorting a list of naturals ascending has a unique result. -/
def sortStarts : List Nat → List Nat
  | [] => []
  | a :: as => insertNat a (sortStarts as)

/-- The records contributed by one data row: blocks processed in ascending
column order. -/
def rowRecords (starts : List Nat) (row : List String) : List Record :=
  (sortStarts starts).filterMap (emitBlock row)

/-- Mutable state of the main extraction loop: the known block starts (a
Python list, appended to) and the accumulated records. -/
structure ExtractState where
  block_starts : List Nat
  records : List Record
deriving DecidableEq, Repr

/-- `for ns in new_starts: if ns not in block_starts: block_starts.append(ns)`
(src/csvtojson.py:163-165). -/
def mergeStarts (bs ns : List Nat) : List Nat :=
  ns.foldl (fun acc n => if n ∈ acc then acc else acc ++ [n]) bs

/-- One iteration of the `while i < len(rows)` loop (src/csvtojson.py:150-213)
for the row at hand.  (The switch-label bookkeeping of the source is dead for
the output records and is not modelled.) -/
def stepRow (st : ExtractState) (row : List String) : ExtractState :=
  if is_empty_row row then st
  else
    let new_starts := find_block_starts row
    if new_starts ≠ [] then
      { st with block_starts := mergeStarts st.block_starts new_starts }
    else
      { st with records := st.records ++ rowRecords st.block_starts row }

/-- The whole extraction loop over the rows after the header row. -/
def extractFrom (rows : List (List String)) (st : ExtractState) : ExtractState :=
  rows.foldl stepRow st

/-- The header search of src/csvtojson.py:130-137: index and block starts of
the first row with a nonempty `find_block_starts`. -/
def findHeader : List (List String) → Option (Nat × List Nat)
  | [] => none
  | r :: rs =>
      let s := find_block_starts r
      if s ≠ [] then some (0, s)
      else (findHeader rs).map (fun p => (p.1 + 1, p.2))

/-- `main()` (src/csvtojson.py:117-220) as a function of the parsed CSV rows.
`none` as input models an unreadable or missing input file (the `open` call
raising); `Except.error` models `raise SystemExit` with a message.  On
success the result is the sorted record list that is serialized to the
output file. -/
def runMain (input : Option (List (List String))) : Except String (List Record) :=
  match input with
  | none => .error "cannot open input file"
  | some rows =>
    if rows.isEmpty then .error "CSV is empty."
    else
      match findHeader rows with
      | none => .error "Could not find a header row containing Port,vLAN,Dj,Alias,Room."
      | some (header_idx, block_starts) =>
          let st := extractFrom (rows.drop (header_idx + 1)) ⟨block_starts, []⟩
          .ok (sortRecords st.records)

/-- Abstract JSON values, for stating the shape of the serialized output.
`null` is included so that "never emits null" is expressible. -/
inductive JsonVal where
  | null : JsonVal
  | str : String → JsonVal
  | arr : List JsonVal → JsonVal
  | obj : List (String × JsonVal) → JsonVal
deriving Repr

/-- Whether a JSON value is a string. -/
def JsonVal.isStr : JsonVal → Bool
  | .str _ => true
  | _ => false

/-- The JSON object built for one record at src/csvtojson.py:204-210: the
five keys in their fixed order, each holding a string. -/
def recordToJson (r : Record) : JsonVal :=
  .obj [("FIELD1", .str r.FIELD1), ("Switch 1", .str r.Switch1),
        ("FIELD3", .str r.FIELD3), ("FIELD4", .str r.FIELD4),
        ("FIELD5", .str r.FIELD5)]

/-- One lowercase hexadecimal digit. -/
def hexDig (n : Nat) : Char :=
  if n < 10 then Char.ofNat (48 + n) else Char.ofNat (87 + n)

/-- Four lowercase hexadecimal digits, as in Python's `\uXXXX` escapes. -/
def hex4 (n : Nat) : List Char :=
  [hexDig (n / 4096 % 16), hexDig (n / 256 % 16), hexDig (n / 16 % 16), hexDig (n % 16)]

/-- Escaping of one character in a JSON string literal, following Python
`json.dump` with its default `ensure_ascii=True`: printable ASCII other than
quote and backslash is kept, the common control characters get two-character
escapes, and everything else becomes `\uXXXX` (a surrogate pair beyond the
BMP). -/
def jsonEscapeChar (c : Char) : List Char :=
  if c = '"' then ['\\', '"']
  else if c = '\\' then ['\\', '\\']
  else if c = '\n' then ['\\', 'n']
  else if c = '\r' then ['\\', 'r']
  else if c = '\t' then ['\\', 't']
  else if c.toNat = 8 then ['\\', 'b']
  else if c.toNat = 12 then ['\\', 'f']
  else if 0x20 ≤ c.toNat && c.toNat ≤ 0x7e then [c]
  else if c.toNat < 0x10000 then '\\' :: 'u' :: hex4 c.toNat
  else
    let v := c.toNat - 0x10000
    ('\\' :: 'u' :: hex4 (0xd800 + v / 0x400)) ++ ('\\' :: 'u' :: hex4 (0xdc00 + v % 0x400))

/-- A JSON string literal for `s`, as Python `json.dump` writes it. -/
def jsonQuote (s : String) : String :=
  ⟨'"' :: (s.data.map jsonEscapeChar).flatten ++ ['"']⟩

example : jsonQuote "LabA DJBob" = "\"LabA DJBob\"" := by decide
example : jsonQuote "a\"b\\c" = "\"a\\\"b\\\\c\"" := by decide

/-- The text `json.dump(rec, out_f, indent=2)` produces for one record
nested at depth 1 inside the array  (src/csvtojson.py:219-220). -/
def renderRecord (r : Record) : String :=
  "  \x7b\n    \"FIELD1\": " ++ jsonQuote r.FIELD1 ++
  ",\n    \"Switch 1\": " ++ jsonQuote r.Switch1 ++
  ",\n    \"FIELD3\": " ++ jsonQuote r.FIELD3 ++
  ",\n    \"FIELD4\": " ++ jsonQuote r.FIELD4 ++
  ",\n    \"FIELD5\": " ++ jsonQuote r.FIELD5 ++
  "\n  \x7d"

/-- The text `json.dump(records, out_f, indent=2)` produces for the whole
record list (src/csvtojson.py:219-220): a JSON array with 2-space
indentation. -/
def renderRecords (rs : List Record) : String :=
  match rs with
  | [] => "[]"
  | _ => "[\n" ++ String.intercalate ",\n" (rs.map renderRecord) ++ "\n]"

/-- Spec-side VLAN collapse, from the specification's words: "collapse a
trailing `.0` / `.00...` decimal suffix on an all-digit value to the integer
form".  Implemented from the right: peel trailing zeros, require a dot, and
require the remainder to be a nonempty run of digits. -/
def collapseSpec (cs : List Char) : List Char :=
  let zs := cs.reverse.takeWhile (fun c => c = '0')
  let rest := cs.reverse.dropWhile (fun c => c = '0')
  match rest with
  | '.' :: b =>
      if !zs.isEmpty && !b.isEmpty && b.all Char.isDigit then b.reverse else cs
  | _ => cs

/-- Spec-side VLAN normalization, from the specification's words: strip a
leading apostrophe and whitespace, collapse a trailing `.0+` suffix on an
all-digit value, then classify — blank stays blank, case-insensitive `lagg`
becomes lowercase `lagg`, a pure-digit string is kept, anything else becomes
blank. -/
def specNormalizeVlan (s : String) : String :=
  let t := collapseSpec (stripApos (normL s.data))
  if t.isEmpty then ""
  else if t.map Char.toLower = "lagg".data then "lagg"
  else if t.all Char.isDigit then ⟨t⟩
  else ""

example : specNormalizeVlan "103.00" = "103" := by decide
example : specNormalizeVlan "LAGG" = "lagg" := by decide
example : specNormalizeVlan "abc" = "" := by decide
example : specNormalizeVlan "' 42 " = "42" := by decide

/-- A character at the head of `List.dropWhile p` falsifies `p`. -/
theorem head_dropWhile_false (p : Char → Bool) (l : List Char) (a : Char)
    (h : (l.dropWhile p).head? = some a) : p a = false := by
  have hx := List.head?_dropWhile_not p l
  rw [h] at hx
  exact hx

/-- The last character of a stripped string is not whitespace. -/
theorem stripL_getLast_not_ws (cs : List Char) (a : Char)
    (h : (stripL cs).getLast? = some a) : pyWS a = false := by
  unfold stripL at h
  rw [List.getLast?_reverse] at h
  exact head_dropWhile_false pyWS _ a h

/-- `stripApos` of a stripped string is again a stripped string. -/
theorem stripApos_stripL_shape (u : List Char) :
    ∃ v, stripApos (stripL u) = stripL v := by
  cases h : stripL u with
  | nil => exact ⟨[], by simp [stripApos, stripL]⟩
  | cons c r =>
      by_cases hc : c = '\''
      · exact ⟨r, by simp [stripApos, hc]⟩
      · exact ⟨u, by simp [stripApos, hc, h]⟩

/-- `clean_portL` always produces a stripped string. -/
theorem clean_portL_shape (cs : List Char) : ∃ v, clean_portL cs = stripL v := by
  unfold clean_portL normL
  exact stripApos_stripL_shape _

/-- The last character of a cleaned port is never a newline. -/
theorem clean_portL_getLast_ne_nl (cs : List Char) :
    (clean_portL cs).getLast? ≠ some '\n' := by
  obtain ⟨v, hv⟩ := clean_portL_shape cs
  rw [hv]
  intro h
  have := stripL_getLast_not_ws v _ h
  simp [pyWS] at this

/-- `splitSlash` never returns the empty list of parts. -/
theorem splitSlash_ne_nil (cs : List Char) : splitSlash cs ≠ [] := by
  cases cs with
  | nil => simp [splitSlash]
  | cons c r =>
      simp only [splitSlash]
      split <;> simp

/-- Joint characterization of the three matcher states through `splitSlash`:
`inGroup` accepts when every part is all-digit and every part after the first
is nonempty; `groupStart` additionally needs the first part nonempty;
`afterFirst` additionally needs at least one further `/`. -/
theorem portStates_splitSlash (cs : List Char) :
    (inGroup cs =
      (((splitSlash cs).headD []).all Char.isDigit &&
        (splitSlash cs).tail.all isDigitSeg)) ∧
    (groupStart cs = (splitSlash cs).all isDigitSeg) ∧
    (afterFirst cs =
      (decide (2 ≤ (splitSlash cs).length) &&
        ((splitSlash cs).headD []).all Char.isDigit &&
        (splitSlash cs).tail.all isDigitSeg)) := by
  induction cs with
  | nil => refine ⟨by simp [inGroup, splitSlash], by simp [groupStart, splitSlash, isDigitSeg], by simp [afterFirst, splitSlash]⟩
  | cons c r ih =>
      obtain ⟨ih1, ih2, ih3⟩ := ih
      obtain ⟨h, t, hps⟩ : ∃ h t, splitSlash r = h :: t := by
        cases hq : splitSlash r with
        | nil => exact absurd hq (splitSlash_ne_nil r)
        | cons h t => exact ⟨h, t, rfl⟩
      rw [hps] at ih1 ih2 ih3
      by_cases hc : c = '/'
      · subst hc
        have hsp : splitSlash ('/' :: r) = [] :: h :: t := by
          simp [splitSlash, hps]
        refine ⟨?_, ?_, ?_⟩
        · rw [show inGroup ('/' :: r) = groupStart r from by simp [inGroup], ih2, hsp]
          simp
        · rw [show groupStart ('/' :: r) = false from by simp [groupStart], hsp]
          simp [isDigitSeg]
        · rw [show afterFirst ('/' :: r) = groupStart r from by simp [afterFirst], ih2, hsp]
          simp
      · have hsp : splitSlash (c :: r) = (c :: h) :: t := by
          simp [splitSlash, hps, hc]
        by_cases hd : c.isDigit
        · refine ⟨?_, ?_, ?_⟩
          · rw [show inGroup (c :: r) = inGroup r from by simp [inGroup, hc, hd], ih1, hsp]
            simp [hd]
          · rw [show groupStart (c :: r) = inGroup r from by simp [groupStart, hc, hd], ih1, hsp]
            simp [isDigitSeg, hd]
          · rw [show afterFirst (c :: r) = afterFirst r from by simp [afterFirst, hc, hd], ih3, hsp]
            simp [hd, hps]
        · refine ⟨?_, ?_, ?_⟩
          · rw [show inGroup (c :: r) = false from by simp [inGroup, hc, hd], hsp]
            simp [hd]
          · rw [show groupStart (c :: r) = false from by simp [groupStart, hc, hd], hsp]
            simp [isDigitSeg, hd]
          · rw [show afterFirst (c :: r) = false from by simp [afterFirst, hc, hd], hsp]
            simp [hd]

/-- The `PORT_RE` body matcher agrees with the split-based grammar:
at least two `/`-separated parts, all nonempty and all-digit. -/
theorem matchPortL_eq_spec (cs : List Char) :
    matchPortL cs =
      (decide (2 ≤ (splitSlash cs).length) && (splitSlash cs).all isDigitSeg) := by
  cases cs with
  | nil => simp [matchPortL, splitSlash]
  | cons c r =>
      obtain ⟨h, t, hps⟩ : ∃ h t, splitSlash r = h :: t := by
        cases hq : splitSlash r with
        | nil => exact absurd hq (splitSlash_ne_nil r)
        | cons h t => exact ⟨h, t, rfl⟩
      obtain ⟨-, -, ih3⟩ := portStates_splitSlash r
      rw [hps] at ih3
      by_cases hc : c = '/'
      · subst hc
        have hsp : splitSlash ('/' :: r) = [] :: h :: t := by simp [splitSlash, hps]
        rw [show matchPortL ('/' :: r) = false from by simp [matchPortL], hsp]
        simp [isDigitSeg]
      · have hsp : splitSlash (c :: r) = (c :: h) :: t := by simp [splitSlash, hps, hc]
        by_cases hd : c.isDigit
        · rw [show matchPortL (c :: r) = afterFirst r from by simp [matchPortL, hd], ih3, hsp]
          simp [isDigitSeg, hd, hps, Bool.and_comm, Bool.and_left_comm, Bool.and_assoc]
        · rw [show matchPortL (c :: r) = false from by simp [matchPortL, hd], hsp]
          simp [isDigitSeg, hd]

/-- On a cleaned port the trailing-newline alternative of `$` is dead:
`valid_port` is just the anchored body matcher. -/
theorem valid_port_clean_eq (s : String) :
    valid_port (clean_port s) = matchPortL (clean_portL s.data) := by
  unfold valid_port
  rw [show (clean_port s).data = clean_portL s.data from rfl]
  rw [if_neg (clean_portL_getLast_ne_nl s.data)]
  simp

/-- On cleaned ports, the source's regex acceptance coincides with the
specification's grammar. -/
theorem valid_port_eq_grammar_on_clean (s : String) :
    valid_port (clean_port s) = specPortGrammar (clean_port s) := by
  rw [valid_port_clean_eq]
  unfold specPortGrammar
  rw [show (clean_port s).data = clean_portL s.data from rfl]
  exact matchPortL_eq_spec _

/-- The alias computed at src/csvtojson.py:196-201 from the room and dj cells. -/
def aliasOf (room dj : String) : String :=
  if room ≠ "" && dj ≠ "" then room ++ " " ++ dj
  else if room ≠ "" then room
  else dj

/-- Full characterization of a successful `emitBlock`: the port is the cleaned
port cell and passed validation, `Switch1` is the row-local normalized VLAN
cell, and the remaining fields follow the blank-VLAN gate and the alias rule. -/
theorem emitBlock_some_cases (row : List String) (start : Nat) (rec : Record)
    (h : emitBlock row start = some rec) :
    rec.FIELD1 = clean_port (get_cell row start) ∧
    valid_port (clean_port (get_cell row start)) = true ∧
    rec.Switch1 = normalize_vlan_for_output (get_cell row (start + 1)) ∧
    ((rec.Switch1 = "" ∧ rec.FIELD3 = "" ∧ rec.FIELD4 = "" ∧ rec.FIELD5 = "") ∨
     (rec.Switch1 ≠ "" ∧ rec.FIELD3 = get_cell row (start + 2) ∧
      rec.FIELD5 = get_cell row (start + 4) ∧
      rec.FIELD4 = aliasOf (get_cell row (start + 4)) (get_cell row (start + 2)))) := by
  simp only [emitBlock] at h
  split at h
  · exact absurd h (by simp)
  · split at h
    · exact absurd h (by simp)
    · next hval =>
        have hv : valid_port (clean_port (get_cell row start)) = true := by
          simpa using hval
        split at h
        · next hblank =>
            obtain rfl : rec = ⟨clean_port (get_cell row start),
                normalize_vlan_for_output (get_cell row (start + 1)), "", "", ""⟩ :=
              (Option.some.injEq _ _).mp h |>.symm
            exact ⟨rfl, hv, rfl, Or.inl ⟨hblank, rfl, rfl, rfl⟩⟩
        · next hblank =>
            obtain rfl : rec = ⟨clean_port (get_cell row start),
                normalize_vlan_for_output (get_cell row (start + 1)),
                get_cell row (start + 2),
                aliasOf (get_cell row (start + 4)) (get_cell row (start + 2)),
                get_cell row (start + 4)⟩ :=
              (Option.some.injEq _ _).mp h |>.symm
            exact ⟨rfl, hv, rfl, Or.inr ⟨hblank, rfl, rfl, rfl⟩⟩

/-- Membership in a stable insertion. -/
theorem mem_insertRec (a x : Record) (l : List Record) :
    x ∈ insertRec a l ↔ x = a ∨ x ∈ l := by
  induction l with
  | nil => simp [insertRec]
  | cons b bs ih =>
      simp only [insertRec]
      split
      · simp only [List.mem_cons, ih]
        tauto
      · simp only [List.mem_cons]

/-- Sorting does not change the members of the record list. -/
theorem mem_sortRecords (x : Record) (l : List Record) :
    x ∈ sortRecords l ↔ x ∈ l := by
  induction l with
  | nil => simp [sortRecords]
  | cons a as ih => simp [sortRecords, mem_insertRec, ih]

/-- Any property true of every record that `emitBlock` can produce is an
invariant of the extraction loop. -/
theorem extractFrom_records_sound (P : Record → Prop)
    (hP : ∀ row start rec, emitBlock row start = some rec → P rec) :
    ∀ rows st, (∀ r ∈ st.records, P r) → ∀ r ∈ (extractFrom rows st).records, P r := by
  intro rows
  induction rows with
  | nil => intro st hst r hr; exact hst r hr
  | cons row rest ih =>
      intro st hst r hr
      refine ih (stepRow st row) ?_ r hr
      intro q hq
      simp only [stepRow] at hq
      split at hq
      · exact hst q hq
      · split at hq
        · exact hst q hq
        · simp only [ExtractState.records] at hq
          rcases List.mem_append.mp hq with hq | hq
          · exact hst q hq
          · obtain ⟨start, -, hemit⟩ := List.mem_filterMap.mp hq
            exact hP row start q hemit

/-- Destructor for a successful `runMain`: the output is the sorted record
list of the extraction loop run after the first header row. -/
theorem runMain_some_ok (rows : List (List String)) (recs : List Record)
    (h : runMain (some rows) = .ok recs) :
    ∃ hidx starts, findHeader rows = some (hidx, starts) ∧
      recs = sortRecords (extractFrom (rows.drop (hidx + 1))
        ⟨starts, []⟩).records := by
  simp only [runMain] at h
  split at h
  · exact absurd h (by simp)
  · split at h
    · exact absurd h (by simp)
    · next hidx starts hfind =>
        exact ⟨hidx, starts, hfind, ((Except.ok.injEq _ _).mp h).symm⟩

/-- Soundness transferred to the final output of `runMain`. -/
theorem runMain_records_sound (P : Record → Prop)
    (hP : ∀ row start rec, emitBlock row start = some rec → P rec)
    (rows : List (List String)) (recs : List Record)
    (h : runMain (some rows) = .ok recs) : ∀ r ∈ recs, P r := by
  obtain ⟨hidx, starts, -, rfl⟩ := runMain_some_ok rows recs h
  intro r hr
  rw [mem_sortRecords] at hr
  exact extractFrom_records_sound P hP _ _ (by simp) r hr

/-- The parsed 4-row CSV input of section 8 of the specification. -/
def rowsSection8 : List (List String) :=
  [["Port", "vLAN", "Dj", "Alias", "Room"],
   ["1/1/1", "103", "DJBob", "", "LabA"],
   ["1/1/2", "", "", "", " "],
   ["1/1/3", "lagg", "", "", ""]]

/-- The record the program actually emits for the `1/1/2` row: the port cell
is non-blank, so the all-four-blank skip does not fire; the blank VLAN then
blanks the remaining fields. -/
def record112 : Record := ⟨"1/1/2", "", "", "", ""⟩

/-- C1, counterexample: on the section-8 input the program does NOT output
exactly the two records claimed — the `1/1/2` row is not skipped, because
its port cell `"1/1/2"` is non-blank and the skip requires all four checked
cells (port, vlan, dj, room) to be blank. -/
theorem c1_endToEnd_counterexample :
    runMain (some rowsSection8) ≠
      Except.ok [⟨"1/1/1", "103", "DJBob", "LabA DJBob", "LabA"⟩,
                 ⟨"1/1/3", "lagg", "", "", ""⟩] := by
  intro h
  rw [show runMain (some rowsSection8) =
        Except.ok [⟨"1/1/1", "103", "DJBob", "LabA DJBob", "LabA"⟩, record112,
                   ⟨"1/1/3", "lagg", "", "", ""⟩] from rfl] at h
  exact absurd ((Except.ok.injEq _ _).mp h) (by decide)

/-- C1, amended: on the section-8 input the program outputs exactly three
records in port order — the two claimed ones plus, between them, the record
for port `1/1/2` with blank `Switch 1`, FIELD3, FIELD4 and FIELD5.  The
`1/1/2` row is not skipped: only a block whose port, vlan, dj and room cells
are all blank is skipped, and its port cell is non-blank. -/
theorem c1_endToEnd_amended :
    runMain (some rowsSection8) =
      Except.ok [⟨"1/1/1", "103", "DJBob", "LabA DJBob", "LabA"⟩,
                 record112,
                 ⟨"1/1/3", "lagg", "", "", ""⟩] := by rfl

/-- C3: after cleaning, a port is accepted iff it satisfies the digits/slash
grammar; the four concrete examples of section 8; every emitted record's
FIELD1 satisfies the grammar; and a block whose cleaned port fails the
grammar produces no record. -/
theorem c3_port_validation :
    (∀ s : String, valid_port (clean_port s) = specPortGrammar (clean_port s)) ∧
    (valid_port "1/1/1" = true ∧
     clean_port "'1/2/3" = "1/2/3" ∧ valid_port "1/2/3" = true ∧
     valid_port "12" = false ∧ valid_port "1/1/a" = false) ∧
    (∀ rows recs, runMain (some rows) = Except.ok recs →
      ∀ rec ∈ recs, specPortGrammar rec.FIELD1 = true) ∧
    (∀ row start, specPortGrammar (clean_port (get_cell row start)) = false →
      emitBlock row start = none) := by
  refine ⟨valid_port_eq_grammar_on_clean, by decide, ?_, ?_⟩
  · intro rows recs h
    refine runMain_records_sound (fun rec => specPortGrammar rec.FIELD1 = true)
      ?_ rows recs h
    intro row start rec hemit
    obtain ⟨h1, h2, -, -⟩ := emitBlock_some_cases row start rec hemit
    rw [h1, ← valid_port_eq_grammar_on_clean]
    exact h2
  · intro row start hgram
    have hvp : valid_port (clean_port (get_cell row start)) = false := by
      rw [valid_port_eq_grammar_on_clean]
      exact hgram
    simp [emitBlock, hvp]

/-- Witness for C3 at concrete inputs: the grammar equivalence at `"'1/2/3"`,
record soundness on a one-data-row file, and the no-record case at a
slashless port. -/
theorem c3_port_validation_witness :
    valid_port (clean_port "'1/2/3") = specPortGrammar (clean_port "'1/2/3") ∧
    specPortGrammar (Record.FIELD1 ⟨"1/1/1", "103", "", "", ""⟩) = true ∧
    emitBlock ["12", "x", "", "", ""] 0 = none := by
  refine ⟨c3_port_validation.1 "'1/2/3", ?_, ?_⟩
  · exact c3_port_validation.2.2.1
      [["Port", "vLAN", "Dj", "Alias", "Room"], ["1/1/1", "103", "", "", ""]]
      [⟨"1/1/1", "103", "", "", ""⟩] (by rfl) ⟨"1/1/1", "103", "", "", ""⟩ (by decide)
  · exact c3_port_validation.2.2.2 ["12", "x", "", "", ""] 0 (by decide)

/-- `findHeader` fails exactly when no row of the file contains the 5-cell
header pattern. -/
theorem findHeader_eq_none_iff (rows : List (List String)) :
    findHeader rows = none ↔ ∀ row ∈ rows, find_block_starts row = [] := by
  induction rows with
  | nil => simp [findHeader]
  | cons r rs ih =>
      simp only [findHeader]
      by_cases hs : find_block_starts r = []
      · simp [hs, Option.map_eq_none', ih]
      · simp [hs]

/-- C8: the run fails (SystemExit / non-zero exit) exactly when the input is
unreadable, parses to zero rows, or contains no header row; an all-blank
block or a grammar-failing port merely produces no record for that block
(`emitBlock` returns `none`) and the run itself still succeeds. -/
theorem c8_two_tier_errors :
    (∀ input : Option (List (List String)),
      (∃ msg, runMain input = Except.error msg) ↔
        (input = none ∨ input = some [] ∨
         ∃ rows, input = some rows ∧ ∀ row ∈ rows, find_block_starts row = [])) ∧
    (∀ row start, get_cell row start = "" → get_cell row (start + 1) = "" →
      get_cell row (start + 2) = "" → get_cell row (start + 4) = "" →
      emitBlock row start = none) ∧
    (∀ row start, valid_port (clean_port (get_cell row start)) = false →
      emitBlock row start = none) := by
  refine ⟨?_, ?_, ?_⟩
  · intro input
    cases input with
    | none => simp [runMain]
    | some rows =>
        constructor
        · rintro ⟨msg, hmsg⟩
          simp only [runMain] at hmsg
          split at hmsg
          · next hempty =>
              exact Or.inr (Or.inl (by simpa using congrArg some (List.isEmpty_iff.mp hempty)))
          · split at hmsg
            · next hnone =>
                exact Or.inr (Or.inr ⟨rows, rfl, (findHeader_eq_none_iff rows).mp hnone⟩)
            · exact absurd hmsg (by simp)
        · rintro (h | h | ⟨rows2, hrows2, hall⟩)
          · exact absurd h (by simp)
          · obtain rfl : rows = [] := by simpa using h
            exact ⟨"CSV is empty.", by simp [runMain]⟩
          · have hr : rows = rows2 := by simpa using hrows2
            subst hr
            have hn : findHeader rows = none := (findHeader_eq_none_iff rows).mpr hall
            cases rows with
            | nil => exact ⟨"CSV is empty.", by simp [runMain]⟩
            | cons a as =>
                exact ⟨"Could not find a header row containing Port,vLAN,Dj,Alias,Room.",
                  by simp [runMain, hn]⟩
  · intro row start h1 h2 h3 h4
    simp [emitBlock, h1, h2, h3, h4]
  · intro row start hvp
    simp [emitBlock, hvp]

/-- Witness for C8 at concrete inputs: a headerless one-row file fails, the
all-blank block at a too-short row yields no record, and a slashless port
yields no record. -/
theorem c8_two_tier_errors_witness :
    (∃ msg, runMain (some [["just", "a", "row"]]) = Except.error msg) ∧
    emitBlock [""] 0 = none ∧
    emitBlock ["12", "5", "x", "", "y"] 0 = none := by
  refine ⟨?_, ?_, ?_⟩
  · exact (c8_two_tier_errors.1 (some [["just", "a", "row"]])).mpr
      (Or.inr (Or.inr ⟨[["just", "a", "row"]], rfl, by decide⟩))
  · exact c8_two_tier_errors.2.1 [""] 0 (by decide) (by decide) (by decide) (by decide)
  · exact c8_two_tier_errors.2.2 ["12", "5", "x", "", "y"] 0 (by decide)

/-- C2: in every successful run, a record with blank `Switch 1` has blank
FIELD3/FIELD4/FIELD5; the `Switch 1` value of any emitted record is the
normalization of that row's own VLAN cell (`emitBlock` sees only the current
row, so nothing can be inherited from another row); and a data-row block with
a valid non-blank port but blank normalized VLAN still yields a record, with
`Switch 1 = ""` and all auxiliary fields blank. -/
theorem c2_blank_vlan_gate :
    (∀ rows recs, runMain (some rows) = Except.ok recs →
      ∀ rec ∈ recs, rec.Switch1 = "" →
        rec.FIELD3 = "" ∧ rec.FIELD4 = "" ∧ rec.FIELD5 = "") ∧
    (∀ row start rec, emitBlock row start = some rec →
      rec.Switch1 = normalize_vlan_for_output (get_cell row (start + 1))) ∧
    (∀ row start, get_cell row start ≠ "" →
      valid_port (clean_port (get_cell row start)) = true →
      normalize_vlan_for_output (get_cell row (start + 1)) = "" →
      emitBlock row start = some ⟨clean_port (get_cell row start), "", "", "", ""⟩) := by
  refine ⟨?_, ?_, ?_⟩
  · intro rows recs h
    refine runMain_records_sound
      (fun rec => rec.Switch1 = "" → rec.FIELD3 = "" ∧ rec.FIELD4 = "" ∧ rec.FIELD5 = "")
      ?_ rows recs h
    intro row start rec hemit hblank
    obtain ⟨-, -, -, hcases⟩ := emitBlock_some_cases row start rec hemit
    rcases hcases with ⟨-, h3, h4, h5⟩ | ⟨hne, -, -, -⟩
    · exact ⟨h3, h4, h5⟩
    · exact absurd hblank hne
  · intro row start rec hemit
    exact (emitBlock_some_cases row start rec hemit).2.2.1
  · intro row start hne hval hvlan
    simp [emitBlock, hne, hval, hvlan]

/-- Witness for C2 at concrete inputs: a two-row file in which VLAN is
present on the first data row and blank on the second; the second row's
record exists, has blank `Switch 1`, and all auxiliary fields blank. -/
theorem c2_blank_vlan_gate_witness :
    (Record.FIELD3 ⟨"1/1/2", "", "x", "y", "z"⟩ = "" ∨
      (⟨"1/1/2", "", "", "", ""⟩ : Record).FIELD3 = "" ∧
      (⟨"1/1/2", "", "", "", ""⟩ : Record).FIELD4 = "" ∧
      (⟨"1/1/2", "", "", "", ""⟩ : Record).FIELD5 = "") ∧
    Record.Switch1 ⟨"1/1/2", "", "", "", ""⟩ =
      normalize_vlan_for_output (get_cell ["1/1/2", "", "DJ", "", "Rm"] 1) ∧
    emitBlock ["1/1/2", "", "DJ", "", "Rm"] 0 =
      some ⟨"1/1/2", "", "", "", ""⟩ := by
  refine ⟨?_, ?_, ?_⟩
  · right
    exact c2_blank_vlan_gate.1
      [["Port", "vLAN", "Dj", "Alias", "Room"],
       ["1/1/1", "103", "DJ", "", "Rm"], ["1/1/2", "", "DJ", "", "Rm"]]
      [⟨"1/1/1", "103", "DJ", "Rm DJ", "Rm"⟩, ⟨"1/1/2", "", "", "", ""⟩]
      (by rfl) ⟨"1/1/2", "", "", "", ""⟩ (by decide) (by decide)
  · exact c2_blank_vlan_gate.2.1 ["1/1/2", "", "DJ", "", "Rm"] 0
      ⟨"1/1/2", "", "", "", ""⟩ (by decide)
  · exact c2_blank_vlan_gate.2.2 ["1/1/2", "", "DJ", "", "Rm"] 0
      (by decide) (by decide) (by decide)

/-- `get_cell` at an index other than the one overwritten by `List.set` is
unchanged. -/
theorem get_cell_set_ne (row : List String) (j i : Nat) (v : String)
    (h : j ≠ i) : get_cell (row.set j v) i = get_cell row i := by
  unfold get_cell
  rw [List.getD_eq_getElem?_getD, List.getD_eq_getElem?_getD, List.getElem?_set_ne h]

/-- C6: the alias cell (column BlockStart+3) is never read — overwriting it
in the row cannot change the emitted record — and for a record with
non-blank `Switch 1`, FIELD4 follows the room/dj combination rule with room
first and a single space. -/
theorem c6_alias_derivation :
    (∀ row start v, emitBlock (row.set (start + 3) v) start = emitBlock row start) ∧
    (∀ row start rec, emitBlock row start = some rec → rec.Switch1 ≠ "" →
      (get_cell row (start + 4) ≠ "" → get_cell row (start + 2) ≠ "" →
        rec.FIELD4 = get_cell row (start + 4) ++ " " ++ get_cell row (start + 2)) ∧
      (get_cell row (start + 4) ≠ "" → get_cell row (start + 2) = "" →
        rec.FIELD4 = get_cell row (start + 4)) ∧
      (get_cell row (start + 4) = "" → get_cell row (start + 2) ≠ "" →
        rec.FIELD4 = get_cell row (start + 2)) ∧
      (get_cell row (start + 4) = "" → get_cell row (start + 2) = "" →
        rec.FIELD4 = "")) := by
  constructor
  · intro row start v
    have h0 := get_cell_set_ne row (start + 3) start v (by omega)
    have h1 := get_cell_set_ne row (start + 3) (start + 1) v (by omega)
    have h2 := get_cell_set_ne row (start + 3) (start + 2) v (by omega)
    have h4 := get_cell_set_ne row (start + 3) (start + 4) v (by omega)
    simp only [emitBlock, h0, h1, h2, h4]
  · intro row start rec hemit hne
    obtain ⟨-, -, -, hcases⟩ := emitBlock_some_cases row start rec hemit
    rcases hcases with ⟨hblank, -, -, -⟩ | ⟨-, -, -, hf4⟩
    · exact absurd hblank hne
    · refine ⟨?_, ?_, ?_, ?_⟩ <;> intro hr hd <;> rw [hf4] <;> simp [aliasOf, hr, hd]

/-- Witness for C6 at concrete inputs: overwriting the alias cell does not
change the record, and the four alias cases at concrete rows. -/
theorem c6_alias_derivation_witness :
    emitBlock (["1/1/1", "103", "Bob", "ignored", "Lab A"].set 3 "XXX") 0 =
      emitBlock ["1/1/1", "103", "Bob", "ignored", "Lab A"] 0 ∧
    Record.FIELD4 ⟨"1/1/1", "103", "Bob", "Lab A Bob", "Lab A"⟩ = "Lab A" ++ " " ++ "Bob" := by
  constructor
  · exact c6_alias_derivation.1 ["1/1/1", "103", "Bob", "ignored", "Lab A"] 0 "XXX"
  · exact (c6_alias_derivation.2 ["1/1/1", "103", "Bob", "ignored", "Lab A"] 0
      ⟨"1/1/1", "103", "Bob", "Lab A Bob", "Lab A"⟩ (by decide) (by decide)).1
      (by decide) (by decide)

/-- `mergeStarts` is exactly union of members. -/
theorem mem_mergeStarts (ns : List Nat) : ∀ bs x, x ∈ mergeStarts bs ns ↔ x ∈ bs ∨ x ∈ ns := by
  induction ns with
  | nil => simp [mergeStarts]
  | cons n ns ih =>
      intro bs x
      rw [show mergeStarts bs (n :: ns) =
            mergeStarts (if n ∈ bs then bs else bs ++ [n]) ns from rfl, ih]
      by_cases hn : n ∈ bs
      · simp only [if_pos hn, List.mem_cons]
        constructor
        · tauto
        · rintro (h | h | h)
          · tauto
          · subst h
            tauto
          · tauto
      · simp only [if_neg hn, List.mem_append, List.mem_singleton, List.mem_cons]
        tauto

/-- `mergeStarts` ignores duplicates: it preserves distinctness. -/
theorem nodup_mergeStarts (ns : List Nat) : ∀ bs, bs.Nodup → (mergeStarts bs ns).Nodup := by
  induction ns with
  | nil => intro bs h; exact h
  | cons n ns ih =>
      intro bs h
      rw [show mergeStarts bs (n :: ns) =
            mergeStarts (if n ∈ bs then bs else bs ++ [n]) ns from rfl]
      refine ih _ ?_
      by_cases hn : n ∈ bs
      · rw [if_pos hn]; exact h
      · rw [if_neg hn]
        simpa [List.nodup_append] using ⟨h, hn⟩

/-- Membership in `insertNat`. -/
theorem mem_insertNat (a x : Nat) (l : List Nat) :
    x ∈ insertNat a l ↔ x = a ∨ x ∈ l := by
  induction l with
  | nil => simp [insertNat]
  | cons b bs ih =>
      simp only [insertNat]
      split
      · simp only [List.mem_cons, ih]
        tauto
      · simp only [List.mem_cons]

/-- `sortStarts` does not change membership. -/
theorem mem_sortStarts (x : Nat) (l : List Nat) : x ∈ sortStarts l ↔ x ∈ l := by
  induction l with
  | nil => simp [sortStarts]
  | cons a as ih => simp [sortStarts, mem_insertNat, ih]

/-- `insertNat` preserves ascending order. -/
theorem pairwise_insertNat (a : Nat) (l : List Nat)
    (h : l.Pairwise (fun x y => x ≤ y)) :
    (insertNat a l).Pairwise (fun x y => x ≤ y) := by
  induction l with
  | nil => simp [insertNat]
  | cons b bs ih =>
      rw [List.pairwise_cons] at h
      simp only [insertNat]
      split
      · next hba =>
          rw [List.pairwise_cons]
          refine ⟨?_, ih h.2⟩
          intro x hx
          rcases (mem_insertNat a x bs).mp hx with rfl | hx
          · omega
          · exact h.1 x hx
      · next hba =>
          rw [List.pairwise_cons]
          refine ⟨?_, List.pairwise_cons.mpr h⟩
          intro x hx
          rcases List.mem_cons.mp hx with rfl | hx
          · omega
          · have := h.1 x hx
            omega

/-- `sortStarts` produces an ascending list. -/
theorem pairwise_sortStarts (l : List Nat) :
    (sortStarts l).Pairwise (fun x y => x ≤ y) := by
  induction l with
  | nil => simp [sortStarts]
  | cons a as ih => exact pairwise_insertNat a _ ih

/-- C7: the known BlockStart set only grows over the extraction loop; a
non-blank row matching the header pattern merges its starts into the set (as
a duplicate-free union) and contributes no record; a non-blank data row
appends exactly the records of the known starts, which are processed in
ascending column order. -/
theorem c7_multi_section_headers :
    (∀ rows st s, s ∈ st.block_starts → s ∈ (extractFrom rows st).block_starts) ∧
    (∀ st row, is_empty_row row = false → find_block_starts row ≠ [] →
      stepRow st row =
        { block_starts := mergeStarts st.block_starts (find_block_starts row),
          records := st.records }) ∧
    (∀ bs ns x, x ∈ mergeStarts bs ns ↔ x ∈ bs ∨ x ∈ ns) ∧
    (∀ bs ns, bs.Nodup → (mergeStarts bs ns).Nodup) ∧
    (∀ st row, is_empty_row row = false → find_block_starts row = [] →
      stepRow st row =
        { block_starts := st.block_starts,
          records := st.records ++ (sortStarts st.block_starts).filterMap (emitBlock row) }) ∧
    (∀ starts : List Nat, (sortStarts starts).Pairwise (fun a b => a ≤ b)) ∧
    (∀ starts x, x ∈ sortStarts starts ↔ x ∈ starts) := by
  have hstep : ∀ st row s, s ∈ st.block_starts → s ∈ (stepRow st row).block_starts := by
    intro st row s hs
    simp only [stepRow]
    split
    · exact hs
    · split
      · exact (mem_mergeStarts _ _ s).mpr (Or.inl hs)
      · exact hs
  refine ⟨?_, ?_, fun bs ns x => mem_mergeStarts ns bs x, fun bs ns => nodup_mergeStarts ns bs,
          ?_, pairwise_sortStarts, fun starts x => mem_sortStarts x starts⟩
  · intro rows
    induction rows with
    | nil => intro st s hs; exact hs
    | cons row rest ih => intro st s hs; exact ih (stepRow st row) s (hstep st row s hs)
  · intro st row hempty hhdr
    simp [stepRow, hempty, hhdr]
  · intro st row hempty hhdr
    simp [stepRow, hempty, hhdr, rowRecords]

/-- Witness for C7 at concrete inputs: a second header row with a new start
merges `5` into the set and emits nothing, and a later data row is scanned
against both starts in ascending order. -/
theorem c7_multi_section_headers_witness :
    (0 : Nat) ∈ (extractFrom
      [["Port", "vLAN", "Dj", "Alias", "Room", "Port", "vLAN", "Dj", "Alias", "Room"]]
      ⟨[0], []⟩).block_starts ∧
    stepRow ⟨[0], []⟩ ["x", "Port", "vLAN", "Dj", "Alias", "Room"] =
      { block_starts := mergeStarts [0] [1], records := [] } ∧
    ((5 : Nat) ∈ mergeStarts [0] [0, 5] ↔ (5 : Nat) ∈ ([0] : List Nat) ∨ (5 : Nat) ∈ [0, 5]) ∧
    stepRow ⟨[5, 0], []⟩ ["1/1/1", "7", "", "", ""] =
      { block_starts := [5, 0],
        records := (sortStarts [5, 0]).filterMap (emitBlock ["1/1/1", "7", "", "", ""]) } := by
  refine ⟨?_, ?_, ?_, ?_⟩
  · exact c7_multi_section_headers.1
      [["Port", "vLAN", "Dj", "Alias", "Room", "Port", "vLAN", "Dj", "Alias", "Room"]]
      ⟨[0], []⟩ 0 (by decide)
  · exact c7_multi_section_headers.2.1 ⟨[0], []⟩
      ["x", "Port", "vLAN", "Dj", "Alias", "Room"] (by decide) (by decide)
  · exact c7_multi_section_headers.2.2.1 [0] [0, 5] 5
  · exact c7_multi_section_headers.2.2.2.2.1 ⟨[5, 0], []⟩
      ["1/1/1", "7", "", "", ""] (by decide) (by decide)

/-- The tuple order is irreflexive. -/
theorem keyLt_irrefl (a : List Int) : keyLt a a = false := by
  induction a with
  | nil => rfl
  | cons x xs ih => simp [keyLt, ih]

/-- The tuple order is asymmetric. -/
theorem keyLt_asymm (a b : List Int) (h : keyLt a b = true) : keyLt b a = false := by
  induction a generalizing b with
  | nil =>
      cases b with
      | nil => simp [keyLt] at h
      | cons y ys => simp [keyLt]
  | cons x xs ih =>
      cases b with
      | nil => simp [keyLt] at h
      | cons y ys =>
          simp only [keyLt] at h ⊢
          by_cases hxy : x < y
          · have : ¬y < x := by omega
            have : ¬y = x := by omega
            simp [*]
          · rw [if_neg hxy] at h
            by_cases hxe : x = y
            · rw [if_pos hxe] at h
              subst hxe
              simp [keyLt_irrefl, ih ys h, if_neg (lt_irrefl x)]
            · rw [if_neg hxe] at h
              exact absurd h (by simp)

/-- Strict comparisons against a common element can be shifted: if `c < a`
then either `b < a` or `c < b`. -/
theorem keyLt_shift (a : List Int) : ∀ b c, keyLt c a = true →
    keyLt b a = true ∨ keyLt c b = true := by
  induction a with
  | nil =>
      intro b c h
      cases c <;> simp [keyLt] at h
  | cons x xs ih =>
      intro b c h
      cases c with
      | nil =>
          cases b with
          | nil => exact Or.inl h
          | cons y ys => exact Or.inr (by simp [keyLt])
      | cons z zs =>
          cases b with
          | nil => exact Or.inl (by simp [keyLt])
          | cons y ys =>
              simp only [keyLt] at h ⊢
              by_cases hzx : z < x
              · by_cases hyx : y < x
                · exact Or.inl (by simp [hyx])
                · refine Or.inr ?_
                  have hzy : z < y := by omega
                  simp [hzy]
              · rw [if_neg hzx] at h
                by_cases hzx2 : z = x
                · rw [if_pos hzx2] at h
                  subst hzx2
                  by_cases hyz : y < z
                  · exact Or.inl (by simp [hyz])
                  · by_cases hye : y = z
                    · subst hye
                      rcases ih ys zs h with h2 | h2
                      · refine Or.inl ?_
                        simp [h2, if_neg (lt_irrefl y)]
                      · refine Or.inr ?_
                        simp [h2, if_neg (lt_irrefl y)]
                    · refine Or.inr ?_
                      have hzy : z < y := by omega
                      simp [hzy]
                · rw [if_neg hzx2] at h
                  exact absurd h (by simp)

/-- `keyLe` is total. -/
theorem keyLe_total (a b : List Int) : keyLe a b = true ∨ keyLe b a = true := by
  by_cases h : keyLt b a = true
  · exact Or.inr (by simp [keyLe, keyLt_asymm b a h])
  · exact Or.inl (by simp [keyLe, Bool.not_eq_true] at h ⊢; exact h)

/-- `keyLe` is transitive. -/
theorem keyLe_trans (a b c : List Int) (hab : keyLe a b = true)
    (hbc : keyLe b c = true) : keyLe a c = true := by
  simp only [keyLe, Bool.not_eq_true'] at hab hbc ⊢
  by_cases h : keyLt c a = true
  · rcases keyLt_shift a b c h with h2 | h2
    · exact absurd h2 (by simp [hab])
    · exact absurd h2 (by simp [hbc])
  · simpa using h

/-- Inserting is a permutation of consing. -/
theorem perm_insertRec (a : Record) (l : List Record) :
    List.Perm (insertRec a l) (a :: l) := by
  induction l with
  | nil => simp [insertRec]
  | cons b bs ih =>
      simp only [insertRec]
      split
      · exact (ih.cons b).trans (List.Perm.swap a b bs)
      · exact List.Perm.refl _

/-- The sorted record list is a permutation of the input. -/
theorem perm_sortRecords (l : List Record) : List.Perm (sortRecords l) l := by
  induction l with
  | nil => simp [sortRecords]
  | cons a as ih => exact (perm_insertRec a (sortRecords as)).trans (ih.cons a)

/-- Inserting preserves sortedness by the record key. -/
theorem pairwise_insertRec (a : Record) (l : List Record)
    (h : l.Pairwise (fun x y => keyLe (recKey x) (recKey y) = true)) :
    (insertRec a l).Pairwise (fun x y => keyLe (recKey x) (recKey y) = true) := by
  induction l with
  | nil => simp [insertRec]
  | cons b bs ih =>
      rw [List.pairwise_cons] at h
      simp only [insertRec]
      split
      · next hlt =>
          rw [List.pairwise_cons]
          refine ⟨?_, ih h.2⟩
          intro x hx
          rcases (mem_insertRec a x bs).mp hx with rfl | hx
          · simp [keyLe, keyLt_asymm _ _ hlt]
          · exact h.1 x hx
      · next hlt =>
          rw [List.pairwise_cons]
          have hab : keyLe (recKey a) (recKey b) = true := by
            simp only [keyLe, Bool.not_eq_true']
            exact Bool.not_eq_true _ ▸ (by simpa using hlt)
          refine ⟨?_, List.pairwise_cons.mpr h⟩
          intro x hx
          rcases List.mem_cons.mp hx with rfl | hx
          · exact hab
          · exact keyLe_trans _ _ _ hab (h.1 x hx)

/-- The sorted record list is sorted by the record key. -/
theorem pairwise_sortRecords (l : List Record) :
    (sortRecords l).Pairwise (fun x y => keyLe (recKey x) (recKey y) = true) := by
  induction l with
  | nil => simp [sortRecords]
  | cons a as ih => exact pairwise_insertRec a _ ih

/-- Stability of the insertion: restricted to any one key, inserting an
element with that key puts it first and inserting any other element changes
nothing. -/
theorem filter_insertRec (x : Record) (m : List Record) (k : List Int) :
    (insertRec x m).filter (fun r => recKey r == k) =
      if recKey x == k then x :: m.filter (fun r => recKey r == k)
      else m.filter (fun r => recKey r == k) := by
  induction m with
  | nil =>
      by_cases hxk : recKey x = k
      · simp [insertRec, List.filter, hxk]
      · simp [insertRec, List.filter, hxk, beq_eq_false_iff_ne.mpr hxk]
  | cons b bs ih =>
      simp only [insertRec]
      split
      · next hlt =>
          by_cases hxk : (recKey x == k) = true
          · have hkx : recKey x = k := by simpa using hxk
            have hbne : recKey b ≠ k := by
              intro he
              rw [he, hkx] at hlt
              simp [keyLt_irrefl] at hlt
            have hbk : (recKey b == k) = false := beq_eq_false_iff_ne.mpr hbne
            simp [List.filter_cons, hbk, hxk, ih]
          · have hxk2 : (recKey x == k) = false := by simpa using hxk
            simp [List.filter_cons, hxk2, ih]
      · simp [List.filter_cons]

/-- The sort is stable: for every key value, the records carrying that key
appear in the output in their input order. -/
theorem filter_sortRecords (l : List Record) (k : List Int) :
    (sortRecords l).filter (fun r => recKey r == k) =
      l.filter (fun r => recKey r == k) := by
  induction l with
  | nil => simp [sortRecords]
  | cons a as ih =>
      rw [show sortRecords (a :: as) = insertRec a (sortRecords as) from rfl,
          filter_insertRec]
      by_cases hak : (recKey a == k) = true
      · rw [if_pos hak, ih, List.filter_cons_of_pos (by simp [hak])]
      · rw [if_neg (by simp at hak ⊢; exact hak), ih,
            List.filter_cons_of_neg (by simp at hak ⊢; exact hak)]

/-- C5, counterexample: the sentinel key `(10**9,)` is not maximal, so a
record whose FIELD1 fails to parse does not in general sort to the end.
Here `"x"` fails to parse, `"1000000001/1"` parses to `(1000000001, 1)`,
yet the failing record sorts to the FRONT: its sentinel key `(10**9,)` is
strictly below `(1000000001, 1)`. -/
theorem c5_sort_counterexample :
    (splitSlash "x".data).mapM pyInt = none ∧
    (splitSlash "1000000001/1".data).mapM pyInt = some [1000000001, 1] ∧
    sortRecords [⟨"1000000001/1", "", "", "", ""⟩, ⟨"x", "", "", "", ""⟩] =
      [⟨"x", "", "", "", ""⟩, ⟨"1000000001/1", "", "", "", ""⟩] := by
  refine ⟨by decide, by decide, by rfl⟩

/-- C5, amended: `sortRecords` stable-sorts by the componentwise numeric key
(permutation + sortedness + per-key order preservation), the section-8
example sorts as claimed, and a FIELD1 that fails to parse is assigned the
fixed sentinel key `(10**9,)` — which orders it after every record whose
first parsed component is below `10**9`, but is not a true maximum. -/
theorem c5_sort_amended :
    (∀ l : List Record, List.Perm (sortRecords l) l) ∧
    (∀ l : List Record,
      (sortRecords l).Pairwise (fun a b => keyLe (recKey a) (recKey b) = true)) ∧
    (∀ l : List Record, ∀ k : List Int,
      (sortRecords l).filter (fun r => recKey r == k) =
        l.filter (fun r => recKey r == k)) ∧
    (port_to_sort_tuple "3/1/46" = [3, 1, 46] ∧
     sortRecords [⟨"3/1/2", "", "", "", ""⟩, ⟨"1/1/46", "", "", "", ""⟩,
                  ⟨"1/2/1", "", "", "", ""⟩] =
       [⟨"1/1/46", "", "", "", ""⟩, ⟨"1/2/1", "", "", "", ""⟩,
        ⟨"3/1/2", "", "", "", ""⟩]) ∧
    (∀ s : String, (splitSlash s.data).mapM pyInt = none →
      port_to_sort_tuple s = [(10 : Int) ^ 9]) ∧
    (∀ s t : String, ∀ k : Int, ∀ ks : List Int,
      (splitSlash s.data).mapM pyInt = none →
      port_to_sort_tuple t = k :: ks → k < (10 : Int) ^ 9 →
      keyLt (port_to_sort_tuple t) (port_to_sort_tuple s) = true) := by
  refine ⟨perm_sortRecords, pairwise_sortRecords, filter_sortRecords,
    ⟨by decide, by rfl⟩, ?_, ?_⟩
  · intro s h
    simp only [List.mapM] at h
    simp [port_to_sort_tuple, List.mapM, h]
  · intro s t k ks hs ht hk
    have hsent : port_to_sort_tuple s = [(10 : Int) ^ 9] := by
      simp only [List.mapM] at hs
      simp [port_to_sort_tuple, List.mapM, hs]
    rw [ht, hsent]
    have hk2 : k < 1000000000 := by simpa using hk
    simp [keyLt, hk2]

/-- Witness for C5 at concrete inputs: permutation, sortedness, stability,
and the sentinel lemmas applied to `"x"` and `"5/6"`. -/
theorem c5_sort_amended_witness :
    List.Perm (sortRecords [⟨"2/1", "", "", "", ""⟩, ⟨"1/1", "", "", "", ""⟩])
      [⟨"2/1", "", "", "", ""⟩, ⟨"1/1", "", "", "", ""⟩] ∧
    port_to_sort_tuple "x" = [(10 : Int) ^ 9] ∧
    keyLt (port_to_sort_tuple "5/6") (port_to_sort_tuple "x") = true := by
  refine ⟨c5_sort_amended.1 _, ?_, ?_⟩
  · exact c5_sort_amended.2.2.2.2.1 "x" (by decide)
  · exact c5_sort_amended.2.2.2.2.2 "x" "5/6" 5 [6] (by decide) (by decide) (by decide)

/-- C9: every serialized record object has exactly the five fixed keys in
order, all values are strings (never null, no key omitted); the `Switch 1`
key carries the normalized VLAN for every emitted record regardless of which
BlockStart produced it; and the rendered text is a JSON array with 2-space
indentation, shown exactly on the section-8 output records. -/
theorem c9_serialization_shape :
    (∀ (r : Record) (kvs : List (String × JsonVal)), recordToJson r = .obj kvs →
      kvs.map Prod.fst = ["FIELD1", "Switch 1", "FIELD3", "FIELD4", "FIELD5"] ∧
      (∀ kv ∈ kvs, (kv.2).isStr = true) ∧
      (∀ kv ∈ kvs, kv.2 ≠ JsonVal.null)) ∧
    (∀ row start rec, emitBlock row start = some rec →
      ∃ kvs, recordToJson rec = .obj kvs ∧
        kvs[1]? = some ("Switch 1",
          .str (normalize_vlan_for_output (get_cell row (start + 1))))) ∧
    renderRecords [⟨"1/1/1", "103", "DJBob", "LabA DJBob", "LabA"⟩,
                   ⟨"1/1/3", "lagg", "", "", ""⟩] =
      "[\n  \x7b\n    \"FIELD1\": \"1/1/1\",\n    \"Switch 1\": \"103\",\n    \"FIELD3\": \"DJBob\",\n    \"FIELD4\": \"LabA DJBob\",\n    \"FIELD5\": \"LabA\"\n  \x7d,\n  \x7b\n    \"FIELD1\": \"1/1/3\",\n    \"Switch 1\": \"lagg\",\n    \"FIELD3\": \"\",\n    \"FIELD4\": \"\",\n    \"FIELD5\": \"\"\n  \x7d\n]" := by
  refine ⟨?_, ?_, by rfl⟩
  · intro r kvs h
    have hkvs : kvs = [("FIELD1", .str r.FIELD1), ("Switch 1", .str r.Switch1),
        ("FIELD3", .str r.FIELD3), ("FIELD4", .str r.FIELD4),
        ("FIELD5", .str r.FIELD5)] := by
      have h2 := h.symm
      simp only [recordToJson, JsonVal.obj.injEq] at h2
      exact h2
    subst hkvs
    refine ⟨rfl, ?_, ?_⟩
    · intro kv hkv
      simp only [List.mem_cons, List.not_mem_nil, or_false] at hkv
      rcases hkv with rfl | rfl | rfl | rfl | rfl <;> rfl
    · intro kv hkv
      simp only [List.mem_cons, List.not_mem_nil, or_false] at hkv
      rcases hkv with rfl | rfl | rfl | rfl | rfl <;> simp
  · intro row start rec hemit
    have hs := (emitBlock_some_cases row start rec hemit).2.2.1
    exact ⟨_, rfl, by rw [← hs]; rfl⟩

/-- Witness for C9 at concrete inputs: the key list and `Switch 1` position
for a concrete record. -/
theorem c9_serialization_shape_witness :
    ([("FIELD1", JsonVal.str "1/1/1"), ("Switch 1", .str "103"),
      ("FIELD3", .str "D"), ("FIELD4", .str "R D"),
      ("FIELD5", .str "R")].map Prod.fst =
        ["FIELD1", "Switch 1", "FIELD3", "FIELD4", "FIELD5"]) ∧
    (∃ kvs, recordToJson ⟨"1/1/1", "103", "D", "R D", "R"⟩ = .obj kvs ∧
      kvs[1]? = some ("Switch 1",
        .str (normalize_vlan_for_output (get_cell ["1/1/1", "103", "D", "", "R"] 1)))) := by
  constructor
  · exact (c9_serialization_shape.1 ⟨"1/1/1", "103", "D", "R D", "R"⟩ _ rfl).1
  · exact c9_serialization_shape.2.1 ["1/1/1", "103", "D", "", "R"] 0
      ⟨"1/1/1", "103", "D", "R D", "R"⟩ (by rfl)

/-- Numeric bounds of an ASCII digit character. -/
theorem isDigit_val (c : Char) (h : c.isDigit = true) :
    48 ≤ c.toNat ∧ c.toNat ≤ 57 := by
  simp only [Char.isDigit, Bool.and_eq_true, decide_eq_true_eq] at h
  exact ⟨h.1, h.2⟩

/-- Digits are not Python whitespace. -/
theorem isDigit_not_pyWS (c : Char) (h : c.isDigit = true) : pyWS c = false := by
  obtain ⟨h1, h2⟩ := isDigit_val c h
  simp only [pyWS, Bool.or_eq_false_iff, Bool.and_eq_false_iff, beq_eq_false_iff_ne,
    decide_eq_false_iff_not, not_le, ne_eq]
  omega

/-- Digits are unchanged by `Char.toLower`. -/
theorem isDigit_toLower (c : Char) (h : c.isDigit = true) : c.toLower = c := by
  obtain ⟨h1, h2⟩ := isDigit_val c h
  unfold Char.toLower
  rw [if_neg]
  omega

/-- A digit character is not the apostrophe. -/
theorem isDigit_ne_apos (c : Char) (h : c.isDigit = true) : c ≠ '\'' := by
  intro he
  subst he
  simp at h

/-- A digit character is not the newline. -/
theorem isDigit_ne_nl (c : Char) (h : c.isDigit = true) : c ≠ '\n' := by
  intro he
  subst he
  simp at h

/-- A digit character is not the NBSP. -/
theorem isDigit_ne_nbsp (c : Char) (h : c.isDigit = true) : c ≠ nbsp := by
  intro he
  subst he
  exact absurd h (by decide)

/-- Mapping a function that fixes every member is the identity. -/
theorem map_eq_self_of_fix (f : α → α) (l : List α) (h : ∀ x ∈ l, f x = x) :
    l.map f = l := by
  induction l with
  | nil => rfl
  | cons a as ih =>
      rw [List.map_cons, h a (by simp), ih (fun x hx => h x (by simp [hx]))]

/-- Stripping a whitespace-free list is the identity. -/
theorem stripL_eq_self (cs : List Char) (h : ∀ c ∈ cs, pyWS c = false) :
    stripL cs = cs := by
  unfold stripL
  have h1 : cs.dropWhile pyWS = cs := by
    cases cs with
    | nil => rfl
    | cons a l => rw [List.dropWhile_cons, if_neg (by simp [h a (by simp)])]
  rw [h1]
  have h2 : cs.reverse.dropWhile pyWS = cs.reverse := by
    cases hr : cs.reverse with
    | nil => rfl
    | cons a l =>
        rw [List.dropWhile_cons, if_neg]
        have ha : a ∈ cs := by
          rw [← List.mem_reverse, hr]
          simp
        simp [h a ha]
  rw [h2, List.reverse_reverse]

/-- `norm` is the identity on nonempty all-digit cell contents. -/
theorem normL_digits (cs : List Char) (h : ∀ c ∈ cs, c.isDigit = true) :
    normL cs = cs := by
  unfold normL replaceNbsp
  rw [map_eq_self_of_fix _ _ (fun x hx => if_neg (isDigit_ne_nbsp x (h x hx)))]
  exact stripL_eq_self cs (fun c hc => isDigit_not_pyWS c (h c hc))

/-- `clean_vlan_raw` is the identity on nonempty all-digit strings. -/
theorem clean_vlan_rawL_digits (cs : List Char) (hne : cs ≠ [])
    (h : ∀ c ∈ cs, c.isDigit = true) : clean_vlan_rawL cs = cs := by
  unfold clean_vlan_rawL
  rw [normL_digits cs h]
  have hapos : stripApos cs = cs := by
    cases cs with
    | nil => rfl
    | cons a l =>
        simp only [stripApos]
        rw [if_neg (isDigit_ne_apos a (h a (by simp)))]
  rw [hapos]
  unfold vlanRawCollapse
  rw [List.takeWhile_eq_self_iff.mpr h, List.dropWhile_eq_nil_iff.mpr h]
  simp [hne]

/-- `digitsTail` accepts any all-digit list. -/
theorem digitsTail_digits (cs : List Char) (h : ∀ c ∈ cs, c.isDigit = true) :
    digitsTail cs = true := by
  induction cs with
  | nil => rfl
  | cons a l ih =>
      simp only [digitsTail]
      rw [if_neg, ih (fun c hc => h c (by simp [hc]))]
      · simp [h a (by simp)]
      · simp only [Bool.and_eq_true, decide_eq_true_eq]
        intro hcl
        exact absurd hcl.2 (isDigit_ne_nl a (h a (by simp)))

/-- The digit matcher accepts any nonempty all-digit list. -/
theorem vlanDigitMatch_digits (cs : List Char) (hne : cs ≠ [])
    (h : ∀ c ∈ cs, c.isDigit = true) : vlanDigitMatch cs = true := by
  cases cs with
  | nil => exact absurd rfl hne
  | cons a l =>
      simp only [vlanDigitMatch]
      rw [digitsTail_digits l (fun c hc => h c (by simp [hc]))]
      simp [h a (by simp)]

/-- An all-digit list never lower-cases to `lagg`. -/
theorem digits_toLower_ne_lagg (cs : List Char) (h : ∀ c ∈ cs, c.isDigit = true) :
    cs.map Char.toLower ≠ "lagg".data := by
  rw [map_eq_self_of_fix _ _ (fun x hx => isDigit_toLower x (h x hx))]
  intro he
  have : 'l' ∈ cs := by
    rw [he]
    simp [String.data]
  have hd := h 'l' this
  simp at hd

/-- `normalize_vlan_for_output` fixes nonempty all-digit strings. -/
theorem nvfoL_digits (cs : List Char) (hne : cs ≠ [])
    (h : ∀ c ∈ cs, c.isDigit = true) : normalize_vlan_for_outputL cs = cs := by
  unfold normalize_vlan_for_outputL
  rw [clean_vlan_rawL_digits cs hne h]
  rw [if_neg hne, if_neg (digits_toLower_ne_lagg cs h), if_pos (vlanDigitMatch_digits cs hne h)]

/-- The last element of a list is a member. -/
theorem getLast?_mem_own (l : List Char) (a : Char) (h : l.getLast? = some a) :
    a ∈ l := by
  induction l with
  | nil => simp at h
  | cons b bs ih =>
      cases bs with
      | nil =>
          simp only [List.getLast?_singleton, Option.some.injEq] at h
          simp [h]
      | cons c cs =>
          rw [List.getLast?_cons_cons] at h
          simp [ih h]

/-- Without a trailing newline, `digitsTail` is just the all-digit test. -/
theorem digitsTail_no_nl (cs : List Char) (h : cs.getLast? ≠ some '\n') :
    digitsTail cs = cs.all Char.isDigit := by
  induction cs with
  | nil => rfl
  | cons a l ih =>
      cases l with
      | nil =>
          have ha : a ≠ '\n' := fun he => h (by simp [he])
          simp [digitsTail, ha]
      | cons b bs =>
          have h2 : (b :: bs).getLast? ≠ some '\n' := by
            rwa [List.getLast?_cons_cons] at h
          calc digitsTail (a :: b :: bs) = (a.isDigit && digitsTail (b :: bs)) := by
                rw [show digitsTail (a :: (b :: bs)) =
                      (if ((b :: bs) = [] && a = '\n') then true
                       else a.isDigit && digitsTail (b :: bs)) from rfl,
                    if_neg (by simp)]
            _ = (a.isDigit && (b :: bs).all Char.isDigit) := by rw [ih h2]
            _ = (a :: b :: bs).all Char.isDigit := by simp

/-- Without a trailing newline, the `^\d+$` matcher is the nonempty all-digit
test. -/
theorem vlanDigitMatch_no_nl (cs : List Char) (h : cs.getLast? ≠ some '\n') :
    vlanDigitMatch cs = (!cs.isEmpty && cs.all Char.isDigit) := by
  cases cs with
  | nil => rfl
  | cons a l =>
      have hl : l.getLast? ≠ some '\n' := by
        cases l with
        | nil => simp
        | cons b bs => rwa [List.getLast?_cons_cons] at h
      simp only [vlanDigitMatch, List.all_cons, List.isEmpty_cons]
      rw [digitsTail_no_nl l hl]
      simp

/-- `vlanRawCollapse` of a stripped string never ends in a newline. -/
theorem vlanRawCollapse_getLast (v : List Char) :
    (vlanRawCollapse (stripL v)).getLast? ≠ some '\n' := by
  have hsl : (stripL v).getLast? ≠ some '\n' := by
    intro h
    have hw := stripL_getLast_not_ws v _ h
    simp [pyWS] at hw
  have hds : ((stripL v).takeWhile Char.isDigit).getLast? ≠ some '\n' := by
    intro h
    have hmem : '\n' ∈ (stripL v).takeWhile Char.isDigit := getLast?_mem_own _ _ h
    have : Char.isDigit '\n' = true := List.mem_takeWhile_imp hmem
    simp at this
  simp only [vlanRawCollapse]
  split
  · exact hsl
  · split
    · exact hds
    · split
      · exact hds
      · exact hsl
    · exact hsl

/-- `clean_vlan_raw` never produces a string ending in a newline. -/
theorem clean_vlan_rawL_getLast_ne_nl (cs : List Char) :
    (clean_vlan_rawL cs).getLast? ≠ some '\n' := by
  unfold clean_vlan_rawL normL
  obtain ⟨v, hv⟩ := stripApos_stripL_shape (replaceNbsp cs)
  rw [hv]
  exact vlanRawCollapse_getLast v

/-- `normalize_vlan_for_output` with the dead newline alternative removed:
blank for blank, `lagg` case-insensitively, nonempty all-digit strings kept,
everything else blanked. -/
theorem nvfoL_characterization (cs : List Char) :
    normalize_vlan_for_outputL cs =
      (if clean_vlan_rawL cs = [] then []
       else if (clean_vlan_rawL cs).map Char.toLower = "lagg".data then "lagg".data
       else if (clean_vlan_rawL cs).all Char.isDigit then clean_vlan_rawL cs
       else []) := by
  simp only [normalize_vlan_for_outputL]
  rw [vlanDigitMatch_no_nl _ (clean_vlan_rawL_getLast_ne_nl cs)]
  by_cases ht : clean_vlan_rawL cs = []
  · simp [ht]
  · have hne : (clean_vlan_rawL cs).isEmpty = false := by
      simpa [List.isEmpty_iff] using ht
    simp [ht, hne]

/-- The image of `normalize_vlan_for_output`: blank, `lagg`, or a nonempty
all-digit string. -/
theorem nvfoL_image (cs : List Char) :
    normalize_vlan_for_outputL cs = [] ∨
    normalize_vlan_for_outputL cs = "lagg".data ∨
    (normalize_vlan_for_outputL cs ≠ [] ∧
      (normalize_vlan_for_outputL cs).all Char.isDigit = true) := by
  rw [nvfoL_characterization]
  by_cases h1 : clean_vlan_rawL cs = []
  · simp [h1]
  · by_cases h2 : (clean_vlan_rawL cs).map Char.toLower = "lagg".data
    · simp [h1, h2]
    · by_cases h3 : (clean_vlan_rawL cs).all Char.isDigit = true
      · right
        right
        simp [h1, h2, h3]
      · simp [h1, h2, h3]

/-- `normalize_vlan_for_output` is the identity on each of its image values. -/
theorem nvfoL_idem (cs : List Char) :
    normalize_vlan_for_outputL (normalize_vlan_for_outputL cs) =
      normalize_vlan_for_outputL cs := by
  rcases nvfoL_image cs with h | h | ⟨h1, h2⟩
  · rw [h]
    decide
  · rw [h]
    decide
  · exact nvfoL_digits _ h1 (List.all_eq_true.mp h2)

/-- C10: VLAN normalization is idempotent; its image is exactly the blank
string, the literal `lagg`, and the pure-digit strings; and each of those is
a fixed point. -/
theorem c10_normalize_idempotent :
    (∀ s : String, normalize_vlan_for_output (normalize_vlan_for_output s) =
      normalize_vlan_for_output s) ∧
    (∀ s : String, normalize_vlan_for_output s = "" ∨
      normalize_vlan_for_output s = "lagg" ∨
      ((normalize_vlan_for_output s).data ≠ [] ∧
        (normalize_vlan_for_output s).data.all Char.isDigit = true)) ∧
    (∀ t : String, (t = "" ∨ t = "lagg" ∨
        (t.data ≠ [] ∧ t.data.all Char.isDigit = true)) →
      normalize_vlan_for_output t = t) := by
  refine ⟨?_, ?_, ?_⟩
  · intro s
    exact congrArg String.mk (nvfoL_idem s.data)
  · intro s
    rcases nvfoL_image s.data with h | h | ⟨h1, h2⟩
    · left
      rw [show normalize_vlan_for_output s = ⟨normalize_vlan_for_outputL s.data⟩ from rfl, h]
    · right
      left
      rw [show normalize_vlan_for_output s = ⟨normalize_vlan_for_outputL s.data⟩ from rfl, h]
    · right
      right
      exact ⟨h1, h2⟩
  · intro t ht
    rcases ht with rfl | rfl | ⟨h1, h2⟩
    · rfl
    · decide
    · rw [show normalize_vlan_for_output t = ⟨normalize_vlan_for_outputL t.data⟩ from rfl,
          nvfoL_digits t.data h1 (List.all_eq_true.mp h2)]

/-- Witness for C10 at concrete inputs: idempotence at `"103.0"` and the
fixed-point property at the pure-digit string `"77"`. -/
theorem c10_normalize_idempotent_witness :
    normalize_vlan_for_output (normalize_vlan_for_output "103.0") =
      normalize_vlan_for_output "103.0" ∧
    normalize_vlan_for_output "77" = "77" := by
  constructor
  · exact c10_normalize_idempotent.1 "103.0"
  · exact c10_normalize_idempotent.2.2 "77" (Or.inr (Or.inr ⟨by decide, by decide⟩))

/-- The source's regex-based collapse and the spec-side right-to-left collapse
agree on every string. -/
theorem collapse_agree (cs : List Char) : collapseSpec cs = vlanRawCollapse cs := by
  by_cases hpos : ∃ ds zs, ds ≠ [] ∧ (∀ c ∈ ds, Char.isDigit c = true) ∧
      zs ≠ [] ∧ (∀ z ∈ zs, z = '0') ∧ cs = ds ++ '.' :: zs
  · obtain ⟨ds, zs, hds, hdig, hzs, hz0, rfl⟩ := hpos
    have htw : (ds ++ '.' :: zs).takeWhile Char.isDigit = ds := by
      rw [List.takeWhile_append_of_pos hdig, List.takeWhile_cons, if_neg (by decide)]
      simp
    have hdw : (ds ++ '.' :: zs).dropWhile Char.isDigit = '.' :: zs := by
      rw [List.dropWhile_append_of_pos hdig, List.dropWhile_cons, if_neg (by decide)]
    have hsrc : vlanRawCollapse (ds ++ '.' :: zs) = ds := by
      simp only [vlanRawCollapse]
      rw [htw, hdw, if_neg hds]
      have hcond : (decide (zs ≠ []) && zs.all fun z => decide (z = '0')) = true := by
        simp only [Bool.and_eq_true, decide_eq_true_eq, List.all_eq_true]
        exact ⟨hzs, fun z hz => by simp [hz0 z hz]⟩
      show (if (decide (zs ≠ []) && zs.all fun z => decide (z = '0')) = true
            then ds else ds ++ '.' :: zs) = ds
      rw [if_pos hcond]
    rw [hsrc]
    have hrev : (ds ++ '.' :: zs).reverse = zs.reverse ++ '.' :: ds.reverse := by
      simp
    have hz0r : ∀ z ∈ zs.reverse, (fun c => decide (c = '0')) z = true := by
      intro z hz
      simp [hz0 z (List.mem_reverse.mp hz)]
    have htwr : (ds ++ '.' :: zs).reverse.takeWhile (fun c => decide (c = '0')) =
        zs.reverse := by
      rw [hrev, List.takeWhile_append_of_pos hz0r, List.takeWhile_cons, if_neg (by decide)]
      simp
    have hdwr : (ds ++ '.' :: zs).reverse.dropWhile (fun c => decide (c = '0')) =
        '.' :: ds.reverse := by
      rw [hrev, List.dropWhile_append_of_pos hz0r, List.dropWhile_cons, if_neg (by decide)]
    simp only [collapseSpec]
    rw [htwr, hdwr]
    have hcond2 : (!zs.reverse.isEmpty && !ds.reverse.isEmpty &&
        ds.reverse.all Char.isDigit) = true := by
      simp only [Bool.and_eq_true, Bool.not_eq_true', List.isEmpty_iff,
        List.all_eq_true, List.isEmpty_eq_false, ne_eq, List.reverse_eq_nil_iff]
      refine ⟨⟨hzs, hds⟩, ?_⟩
      intro c hc
      exact hdig c (List.mem_reverse.mp hc)
    show (if (!zs.reverse.isEmpty && !ds.reverse.isEmpty && ds.reverse.all Char.isDigit) = true
          then ds.reverse.reverse else ds ++ '.' :: zs) = ds
    rw [if_pos hcond2]
    simp
  · have hsrc : vlanRawCollapse cs = cs := by
      simp only [vlanRawCollapse]
      split
      · rfl
      · next hds =>
          split
          · next heq =>
              conv_rhs => rw [← List.takeWhile_append_dropWhile Char.isDigit cs]
              rw [heq, List.append_nil]
          · next zs heq =>
              split
              · next hcond =>
                  exfalso
                  apply hpos
                  simp only [Bool.and_eq_true, decide_eq_true_eq, List.all_eq_true] at hcond
                  refine ⟨cs.takeWhile Char.isDigit, zs, hds, ?_, hcond.1, ?_, ?_⟩
                  · intro c hc
                    exact List.mem_takeWhile_imp hc
                  · intro z hz
                    simpa using hcond.2 z hz
                  · conv_lhs => rw [← List.takeWhile_append_dropWhile Char.isDigit cs]
                    rw [heq]
              · rfl
          · rfl
    rw [hsrc]
    simp only [collapseSpec]
    split
    · next b heq =>
        split
        · next hcond =>
            exfalso
            apply hpos
            simp only [Bool.and_eq_true, Bool.not_eq_true', List.isEmpty_iff,
              List.all_eq_true, List.isEmpty_eq_false, ne_eq] at hcond
            have hrev2 : cs.reverse = cs.reverse.takeWhile (fun c => decide (c = '0')) ++
                '.' :: b := by
              conv_lhs => rw [← List.takeWhile_append_dropWhile
                (fun c => decide (c = '0')) cs.reverse]
              rw [heq]
            have hcs : cs = b.reverse ++ '.' ::
                (cs.reverse.takeWhile (fun c => decide (c = '0'))).reverse := by
              have := congrArg List.reverse hrev2
              simpa using this
            refine ⟨b.reverse, (cs.reverse.takeWhile (fun c => decide (c = '0'))).reverse,
              by simpa using hcond.1.2, ?_, by simpa using hcond.1.1, ?_, hcs⟩
            · intro c hc
              exact hcond.2 c (List.mem_reverse.mp hc)
            · intro z hz
              have := List.mem_takeWhile_imp (List.mem_reverse.mp hz)
              simpa using this
        · rfl
    · rfl

/-- C4: the source's VLAN normalization equals the specification's
description — strip apostrophe and whitespace, collapse a trailing `.0+`
suffix on an all-digit value, then classify into blank / `lagg` /
pure-digits / blank — together with the five concrete examples. -/
theorem c4_vlan_normalization :
    (∀ s : String, normalize_vlan_for_output s = specNormalizeVlan s) ∧
    (normalize_vlan_for_output "103.00" = "103" ∧
     normalize_vlan_for_output "LAGG" = "lagg" ∧
     normalize_vlan_for_output "abc" = "" ∧
     normalize_vlan_for_output "" = "" ∧
     normalize_vlan_for_output "' 42 " = "42") := by
  refine ⟨?_, by decide⟩
  intro s
  rw [show normalize_vlan_for_output s = ⟨normalize_vlan_for_outputL s.data⟩ from rfl,
      nvfoL_characterization]
  simp only [specNormalizeVlan]
  rw [show collapseSpec (stripApos (normL s.data)) = clean_vlan_rawL s.data from
        (collapse_agree _).trans rfl]
  by_cases h1 : clean_vlan_rawL s.data = []
  · simp [h1]
  · have h1e : (clean_vlan_rawL s.data).isEmpty = false := by
      simp [List.isEmpty_iff, h1]
    by_cases h2 : (clean_vlan_rawL s.data).map Char.toLower = "lagg".data
    · simp [h1, h1e, h2]
    · by_cases h3 : (clean_vlan_rawL s.data).all Char.isDigit = true
      · simp [h1, h1e, h2, h3]
      · simp [h1, h1e, h2, h3]
